import Mathlib

/-!
Verification of the tool-call counting experiment harness
(src/experiment.py and src/agents.py).

The Python code is shallowly embedded:
* the agent invocation (pydantic-ai `agent.run`) is opaque; the observable behavior of one trial is the sequence of `random.choice` draws its tool calls
  make plus either a reported integer or a raised exception;
* `asyncio.gather` is modelled as an order-preserving join of the per-trial
  results (its documented semantics);
* Python ints are `Int`/`Nat`, float arithmetic is modelled over `ℚ`;
* raising code returns `Except`.
-/

namespace agents

/-- Structure `ExperimentDeps` from src/agents.py: per-trial mutable tool-call counter. -/
structure ExperimentDeps where
  call_count : Nat
deriving DecidableEq

/-- The fixed label list of the counting tool (src/agents.py lines 46-51). -/
def choices : List String := ["fish", "dog", "mouse", "snake"]

/-- Function `counting_tool` from src/agents.py lines 42-52: increments the per-trial
counter and returns one label; the `random.choice` draw is made explicit as a
`Fin 4` index into the label list. -/
def counting_tool (ctx : ExperimentDeps) (r : Fin 4) : ExperimentDeps × String :=
  ({ call_count := ctx.call_count + 1 }, choices.get (Fin.cast rfl r))

/-- Embedding of `os.getenv(key, default)`: the default applies only when the variable is
unset, not when it is set to the empty string. -/
def getenv (env : List (String × String)) (key dflt : String) : String :=
  match env.lookup key with
  | some v => v
  | none => dflt

/-- Constant `TOOL_NAME` from src/agents.py line 22. -/
def TOOL_NAME (env : List (String × String)) : String :=
  getenv env "AGENT_TOOL_NAME" "foo"

/-- The configuration-failure taxonomy of the spec (spec §7). The module code never
produces such an error; the type exists so that absence can be stated. -/
inductive ConfigError where
  | emptyToolName
deriving DecidableEq

/-- The observable result of importing src/agents.py: which tool name got
registered. -/
structure AgentModule where
  tool_name : String
deriving DecidableEq

/-- Loading src/agents.py (lines 22 and 42): reads `TOOL_NAME` from the
environment and registers the counting tool under that name. The module
contains no validation of the name, so loading always succeeds. -/
def loadModule (env : List (String × String)) : Except ConfigError AgentModule :=
  Except.ok { tool_name := TOOL_NAME env }

end agents

namespace experiment

/-- Structure `ExperimentDeps` from src/experiment.py: per-trial mutable tool-call
counter. -/
structure ExperimentDeps where
  call_count : Nat
deriving DecidableEq

/-- The fixed label list of the `foo` tool (src/experiment.py lines 46-51). -/
def choices : List String := ["fish", "dog", "mouse", "snake"]

/-- The `foo` tool from src/experiment.py lines 42-52: increments the per-trial
counter and returns one label; the `random.choice` draw is made explicit as a
`Fin 4` index into the label list. -/
def foo (ctx : ExperimentDeps) (r : Fin 4) : ExperimentDeps × String :=
  ({ call_count := ctx.call_count + 1 }, choices.get (Fin.cast rfl r))

/-- The state transition of one `foo` call. -/
def stepTool (d : ExperimentDeps) (r : Fin 4) : ExperimentDeps := (foo d r).1

/-- Observable behavior of one opaque `agent.run` call (src/experiment.py
lines 60-64): the random draws of the tool calls it makes, and either the
reported integer output (`some`) or a raised exception (`none`). -/
structure AgentBehavior where
  toolDraws : List (Fin 4)
  result : Option Int

/-- The (reported_count, actual_count, is_accurate) triple returned by
`run_single_experiment`; the spec calls it a TrialRecord. -/
structure TrialRecord where
  reported_count : Int
  actual_count : Nat
  is_accurate : Bool
deriving DecidableEq

/-- Function `run_single_experiment` from src/experiment.py lines 55-72, paired with the
diagnostics it echoes to stderr. On success the record is
(output, call_count, output == call_count); on a raised exception it is
(0, call_count reached so far, False) plus one diagnostic naming the trial. -/
def run_single_experiment (experiment_id : Nat) (b : AgentBehavior) :
    TrialRecord × List String :=
  let deps := b.toolDraws.foldl stepTool { call_count := 0 }
  match b.result with
  | some reported =>
      ({ reported_count := reported, actual_count := deps.call_count,
         is_accurate := reported == (deps.call_count : Int) }, [])
  | none =>
      ({ reported_count := 0, actual_count := deps.call_count,
         is_accurate := false },
       ["Experiment " ++ toString experiment_id ++ " failed"])

/-- Final counter value of a trial whose tool calls drew `draws`, starting from
a fresh `ExperimentDeps` with counter 0. -/
def counterAfter (draws : List (Fin 4)) : Nat :=
  (draws.foldl stepTool { call_count := 0 }).call_count

/-- One step of `collections.Counter` construction over an insertion-ordered
association list: increment the count of `x`, or append `(x, 1)` at the end if
`x` is new. -/
def bump (acc : List (Nat × Nat)) (x : Nat) : List (Nat × Nat) :=
  match acc with
  | [] => [(x, 1)]
  | (y, c) :: rest => if x = y then (y, c + 1) :: rest else (y, c) :: bump rest x

/-- Embedding of `collections.Counter(xs)`: the frequency table of `xs`, keyed in insertion
order of first occurrence. -/
def counterList (xs : List Nat) : List (Nat × Nat) := xs.foldl bump []

/-- The reduction step behind `most_common(1)`: keep the earlier entry on a
frequency tie. -/
def pickMax (best cur : Nat × Nat) : Nat × Nat := if cur.2 > best.2 then cur else best

/-- Embedding of `Counter.most_common(1)` followed by `[0]` (src/experiment.py line 91): the
first entry (in insertion order) of maximal frequency, since `heapq.nlargest`
is stable. `none` on an empty counter, where the Python `[0]` would raise
IndexError. -/
def most_common1 (items : List (Nat × Nat)) : Option (Nat × Nat) :=
  match items with
  | [] => none
  | it :: rest => some (rest.foldl pickMax it)

/-- The keys of an association list, in order. -/
def keys (l : List (Nat × Nat)) : List Nat := l.map Prod.fst

/-- Count stored for `v` in an association list (0 if absent); reads the first
entry with key `v`, as a dict lookup does. -/
def getCount : List (Nat × Nat) → Nat → Nat
  | [], _ => 0
  | p :: rest, v => if p.1 = v then p.2 else getCount rest v

/-- The distinct values of a list, in order of first occurrence. -/
def firstOccurrences : List Nat → List Nat
  | [] => []
  | x :: xs => x :: (firstOccurrences xs).filter (fun y => y != x)

/-- Errors `run_experiments_concurrently` can raise, plus the configuration error of the spec (spec §7), which the code never produces. -/
inductive ExpError where
  | zeroDivision
  | indexError
  | configurationError
deriving DecidableEq

/-- The statistics dictionary built at src/experiment.py lines 94-104. -/
structure Stats where
  model : String
  num_experiments : Int
  accuracy_rate : ℚ
  most_common_count : Nat
  most_common_percentage : ℚ
  reported_counts : List Int
  actual_counts : List Nat
  accuracies : List Bool
  actual_count_frequencies : List (Nat × Nat)
deriving DecidableEq, Inhabited

/-- The ordered list of per-trial records produced by
`asyncio.gather(*tasks)` over `range(num_experiments)`
(src/experiment.py lines 80-81); `beh i` is the opaque behavior of the agent
call of trial `i`, and Python `range` of a non-positive bound is empty. -/
def gatherRecords (num_experiments : Int) (beh : Nat → AgentBehavior) :
    List TrialRecord :=
  (List.range num_experiments.toNat).map
    (fun i => (run_single_experiment (i + 1) (beh i)).1)

/-- Function `run_experiments_concurrently` from src/experiment.py lines 75-104.
`sum(accuracies)` over Python booleans is the number of `True`s; the division
by `len(accuracies)` raises ZeroDivisionError when no trial ran, and
`most_common(1)[0]` would raise IndexError on an empty counter. -/
def run_experiments_concurrently (model : String) (num_experiments : Int)
    (beh : Nat → AgentBehavior) : Except ExpError Stats :=
  let results := gatherRecords num_experiments beh
  let reported_counts := results.map (fun r => r.reported_count)
  let actual_counts := results.map (fun r => r.actual_count)
  let accuracies := results.map (fun r => r.is_accurate)
  if accuracies.length = 0 then Except.error ExpError.zeroDivision
  else
    match most_common1 (counterList actual_counts) with
    | none => Except.error ExpError.indexError
    | some mc =>
        Except.ok {
          model := model
          num_experiments := num_experiments
          accuracy_rate := ((accuracies.countP id : ℚ) / (accuracies.length : ℚ)) * 100
          most_common_count := mc.1
          most_common_percentage := ((mc.2 : ℚ) / (num_experiments : ℚ)) * 100
          reported_counts := reported_counts
          actual_counts := actual_counts
          accuracies := accuracies
          actual_count_frequencies := counterList actual_counts }

/-- Errors the detailed-statistics block of `main` can raise. -/
inductive MainError where
  | fromRun (e : ExpError)
  | zeroDivision
  | valueError
deriving DecidableEq

/-- The detailed statistics printed by `main` (src/experiment.py
lines 129-136). -/
structure DetailedReport where
  average_actual : ℚ
  min_actual : Nat
  max_actual : Nat
deriving DecidableEq, Inhabited

/-- The detailed-statistics block of `main` (src/experiment.py lines 129-136):
average = sum/len over actual counts (ZeroDivisionError on an empty list),
then Python `min`/`max` over the list (ValueError on an empty sequence). -/
def mainReport (model : String) (num_experiments : Int)
    (beh : Nat → AgentBehavior) : Except MainError DetailedReport :=
  match run_experiments_concurrently model num_experiments beh with
  | Except.error e => Except.error (MainError.fromRun e)
  | Except.ok stats =>
      if stats.actual_counts.length = 0 then Except.error MainError.zeroDivision
      else
        match stats.actual_counts with
        | [] => Except.error MainError.valueError
        | a :: rest =>
            Except.ok {
              average_actual :=
                ((stats.actual_counts.sum : ℚ) / (stats.actual_counts.length : ℚ))
              min_actual := rest.foldl Nat.min a
              max_actual := rest.foldl Nat.max a }

/-- A concrete four-trial behavior oracle used by the witnesses: trials 1 and 3
make three tool calls and report accurately; trials 2 and 4 make five tool
calls and then raise. -/
def behFix : Nat → AgentBehavior := fun i =>
  if i % 2 = 0 then { toolDraws := List.replicate 3 (0 : Fin 4), result := some 3 }
  else { toolDraws := List.replicate 5 (1 : Fin 4), result := none }

/-- The statistics of the concrete four-trial batch. -/
def statsFix : Stats :=
  ((run_experiments_concurrently "m" 4 behFix).toOption).getD default

/-- The detailed report of the concrete four-trial batch. -/
def reportFix : DetailedReport :=
  ((mainReport "m" 4 behFix).toOption).getD default

end experiment

namespace experiment

theorem call_count_foldl (draws : List (Fin 4)) (d : ExperimentDeps) :
    (draws.foldl stepTool d).call_count = d.call_count + draws.length := by
  induction draws generalizing d with
  | nil => simp
  | cons r rest ih =>
      simp only [List.foldl_cons, ih, stepTool, foo, List.length_cons]
      omega

/-- C7: within a trial the counter starts at 0, each `foo` invocation
increments it by exactly 1 and returns a label from the fixed set
{fish, dog, mouse, snake}; the counter is monotonically non-decreasing over the
trial (after j ≤ k calls, counter value after j ≤ after k), and its final value
equals the number of tool invocations. -/
theorem C7_tool_invariants (d : ExperimentDeps) (r : Fin 4)
    (draws : List (Fin 4)) (j k : Nat) (hjk : j ≤ k) :
    (foo d r).1.call_count = d.call_count + 1 ∧
    (foo d r).2 ∈ choices ∧
    counterAfter (draws.take j) ≤ counterAfter (draws.take k) ∧
    counterAfter draws = draws.length := by
  refine ⟨rfl, ?_, ?_, by simp [counterAfter, call_count_foldl]⟩
  · fin_cases r <;> simp [foo, choices]
  · simp only [counterAfter, call_count_foldl, List.length_take]
    omega

/-- Witness for C7 at a concrete trial of two tool calls. -/
theorem C7_tool_invariants_witness :
    (foo { call_count := 0 } (0 : Fin 4)).1.call_count =
      ({ call_count := 0 } : ExperimentDeps).call_count + 1 ∧
    (foo { call_count := 0 } (0 : Fin 4)).2 ∈ choices ∧
    counterAfter (([0, 1] : List (Fin 4)).take 1) ≤
      counterAfter (([0, 1] : List (Fin 4)).take 2) ∧
    counterAfter ([0, 1] : List (Fin 4)) = ([0, 1] : List (Fin 4)).length :=
  C7_tool_invariants { call_count := 0 } 0 [0, 1] 1 2 (by decide)

/-- C1 counterexample: a trial whose agent call raises before any tool call
yields the record (0, 0, false) — reported_count equals actual_count, yet
accurate is false, refuting the claimed iff (and the (0,0) → true instance). -/
theorem C1_counterexample :
    ((run_single_experiment 1 { toolDraws := [], result := none }).1).reported_count =
      (((run_single_experiment 1 { toolDraws := [], result := none }).1).actual_count : Int) ∧
    ((run_single_experiment 1 { toolDraws := [], result := none }).1).is_accurate = false :=
  ⟨rfl, rfl⟩

/-- C1 amended: the accurate flag equals (the agent call succeeded AND
reported_count == actual_count). For successful trials this is the claimed
iff; a trial whose agent call raises always has accurate = false, even when
reported_count = actual_count = 0. -/
theorem C1_accuracy_flag (experiment_id : Nat) (b : AgentBehavior) :
    ((run_single_experiment experiment_id b).1).is_accurate =
      (b.result.isSome &&
        (((run_single_experiment experiment_id b).1).reported_count ==
          (((run_single_experiment experiment_id b).1).actual_count : Int))) := by
  cases hb : b.result <;> simp [run_single_experiment, hb]

/-- C10: the duplicated tools `foo` (src/experiment.py) and `counting_tool`
(src/agents.py) are behaviorally equivalent: from the same counter value and
the same random draw, both increment call_count by exactly 1 and both return
the same label, drawn from the identical four-element list
[fish, dog, mouse, snake]. -/
theorem C10_tools_equivalent (c : Nat) (r : Fin 4) :
    (foo { call_count := c } r).1.call_count = c + 1 ∧
    (agents.counting_tool { call_count := c } r).1.call_count = c + 1 ∧
    (foo { call_count := c } r).2 = (agents.counting_tool { call_count := c } r).2 ∧
    choices = agents.choices ∧
    choices = ["fish", "dog", "mouse", "snake"] :=
  ⟨rfl, rfl, rfl, rfl, rfl⟩

/-- C3: a trial whose agent call raises does not propagate the failure: its
record is (0, counter value reached before the failure, false), one diagnostic
naming the trial is echoed to stderr, and the batch still contains one record
for every trial, each at its own index. -/
theorem C3_failure_isolation (n : Int) (beh : Nat → AgentBehavior) (i : Nat)
    (hfail : (beh i).result = none) :
    (run_single_experiment (i + 1) (beh i)).1.reported_count = 0 ∧
    (run_single_experiment (i + 1) (beh i)).1.actual_count =
      (beh i).toolDraws.length ∧
    (run_single_experiment (i + 1) (beh i)).1.is_accurate = false ∧
    (run_single_experiment (i + 1) (beh i)).2 =
      ["Experiment " ++ toString (i + 1) ++ " failed"] ∧
    (gatherRecords n beh).length = n.toNat ∧
    (∀ j, j < n.toNat →
      (gatherRecords n beh)[j]? = some (run_single_experiment (j + 1) (beh j)).1) := by
  refine ⟨?_, ?_, ?_, ?_, ?_, ?_⟩
  · simp [run_single_experiment, hfail]
  · simp [run_single_experiment, hfail, call_count_foldl]
  · simp [run_single_experiment, hfail]
  · simp [run_single_experiment, hfail]
  · simp [gatherRecords]
  · intro j hj
    simp [gatherRecords, List.getElem?_map, List.getElem?_range, hj]

/-- Witness for C3: trial 1 of the concrete batch raises after five tool
calls. -/
theorem C3_failure_isolation_witness :
    (run_single_experiment (1 + 1) (behFix 1)).1.reported_count = 0 ∧
    (run_single_experiment (1 + 1) (behFix 1)).1.actual_count =
      (behFix 1).toolDraws.length ∧
    (run_single_experiment (1 + 1) (behFix 1)).1.is_accurate = false ∧
    (run_single_experiment (1 + 1) (behFix 1)).2 =
      ["Experiment " ++ toString (1 + 1) ++ " failed"] ∧
    (gatherRecords 4 behFix).length = (4 : Int).toNat ∧
    (∀ j, j < (4 : Int).toNat →
      (gatherRecords 4 behFix)[j]? = some (run_single_experiment (j + 1) (behFix j)).1) :=
  C3_failure_isolation 4 behFix 1 (by decide)

/-- C4 counterexample: with a trial count of 0 the runner does not fail with a
configuration error before dispatch; it dispatches zero trials and then raises
ZeroDivisionError at the accuracy-rate computation. -/
theorem C4_counterexample :
    run_experiments_concurrently "anthropic:claude-4-sonnet-20250514" 0
      (fun _ => { toolDraws := [], result := some 0 }) =
      Except.error ExpError.zeroDivision ∧
    ExpError.zeroDivision ≠ ExpError.configurationError :=
  ⟨rfl, by decide⟩

/-- C4 amended: a zero (or negative) trial count is not rejected up front with
a configuration error; the runner dispatches zero trials — so no TrialRecord is
produced — and the run then fails with ZeroDivisionError while aggregating, so
no report is silently returned. -/
theorem C4_zero_trials (model : String) (n : Int) (beh : Nat → AgentBehavior)
    (hn : n ≤ 0) :
    gatherRecords n beh = [] ∧
    run_experiments_concurrently model n beh = Except.error ExpError.zeroDivision := by
  have h0 : n.toNat = 0 := Int.toNat_of_nonpos hn
  refine ⟨?_, ?_⟩
  · simp [gatherRecords, h0]
  · simp [run_experiments_concurrently, gatherRecords, h0]

/-- Witness for C4 at trial count -3. -/
theorem C4_zero_trials_witness :
    gatherRecords (-3) behFix = [] ∧
    run_experiments_concurrently "m" (-3) behFix = Except.error ExpError.zeroDivision :=
  C4_zero_trials "m" (-3) behFix (by decide)

end experiment

namespace agents

/-- C9 counterexample: with AGENT_TOOL_NAME set to the empty string, loading
the agents module succeeds and registers the empty tool name — no configuration
error is raised and the default "foo" is not substituted. -/
theorem C9_counterexample :
    loadModule [("AGENT_TOOL_NAME", "")] = Except.ok { tool_name := "" } ∧
    TOOL_NAME [("AGENT_TOOL_NAME", "")] = "" :=
  ⟨rfl, rfl⟩

/-- C9 amended: an empty tool name is never rejected: whenever the environment
maps AGENT_TOOL_NAME to the empty string, the empty name is silently used as
the registered tool name (the getenv default "foo" applies only when the variable
is absent), and the module loads with no configuration error. -/
theorem C9_empty_tool_name (env : List (String × String))
    (h : env.lookup "AGENT_TOOL_NAME" = some "") :
    TOOL_NAME env = "" ∧
    loadModule env = Except.ok { tool_name := "" } := by
  constructor <;> simp [loadModule, TOOL_NAME, getenv, h]

/-- Witness for C9 at a concrete environment. -/
theorem C9_empty_tool_name_witness :
    TOOL_NAME [("OTHER", "x"), ("AGENT_TOOL_NAME", "")] = "" ∧
    loadModule [("OTHER", "x"), ("AGENT_TOOL_NAME", "")] =
      Except.ok { tool_name := "" } :=
  C9_empty_tool_name [("OTHER", "x"), ("AGENT_TOOL_NAME", "")] (by decide)

end agents

namespace experiment

/-- What a successful run of the experiment batch determines: every field of
the returned statistics dictionary, spelled out. -/
theorem run_ok_inv (model : String) (n : Int) (beh : Nat → AgentBehavior)
    (stats : Stats) (h : run_experiments_concurrently model n beh = Except.ok stats) :
    stats.model = model ∧
    stats.num_experiments = n ∧
    stats.reported_counts = (gatherRecords n beh).map (fun r => r.reported_count) ∧
    stats.actual_counts = (gatherRecords n beh).map (fun r => r.actual_count) ∧
    stats.accuracies = (gatherRecords n beh).map (fun r => r.is_accurate) ∧
    stats.actual_count_frequencies = counterList stats.actual_counts ∧
    stats.accuracy_rate =
      ((stats.accuracies.countP id : ℚ) / (stats.accuracies.length : ℚ)) * 100 ∧
    stats.accuracies ≠ [] ∧
    (∃ mf, most_common1 (counterList stats.actual_counts) =
        some (stats.most_common_count, mf) ∧
      stats.most_common_percentage = ((mf : ℚ) / (n : ℚ)) * 100) := by
  simp only [run_experiments_concurrently] at h
  split at h
  · exact absurd h (by simp)
  next hlen =>
    split at h
    · exact absurd h (by simp)
    next mc hmc =>
      injection h with h
      subst h
      refine ⟨rfl, rfl, rfl, rfl, rfl, rfl, rfl, ?_, ⟨mc.2, ?_, rfl⟩⟩
      · intro hnil
        have hnil2 : (gatherRecords n beh).map (fun r => r.is_accurate) = [] := hnil
        exact hlen (by rw [hnil2]; rfl)
      · simpa using hmc

/-- C2: a batch over N trials produces exactly N TrialRecords, and the record
at output position i is the record of input trial i (the gather preserves
input-index order regardless of completion order). -/
theorem C2_batch_shape (model : String) (n : Int) (beh : Nat → AgentBehavior)
    (stats : Stats) (h : run_experiments_concurrently model n beh = Except.ok stats)
    (i : Nat) (hi : i < n.toNat) :
    (gatherRecords n beh).length = n.toNat ∧
    stats.actual_counts.length = n.toNat ∧
    stats.num_experiments = n ∧
    (gatherRecords n beh)[i]? = some (run_single_experiment (i + 1) (beh i)).1 := by
  obtain ⟨-, hnum, -, hact, -, -, -, -, -⟩ := run_ok_inv model n beh stats h
  refine ⟨by simp [gatherRecords], ?_, hnum, ?_⟩
  · rw [hact]; simp [gatherRecords]
  · simp [gatherRecords, List.getElem?_map, List.getElem?_range, hi]

/-- Witness for C2 at the concrete four-trial batch, position 2. -/
theorem C2_batch_shape_witness :
    (gatherRecords 4 behFix).length = (4 : Int).toNat ∧
    statsFix.actual_counts.length = (4 : Int).toNat ∧
    statsFix.num_experiments = 4 ∧
    (gatherRecords 4 behFix)[2]? = some (run_single_experiment (2 + 1) (behFix 2)).1 :=
  C2_batch_shape "m" 4 behFix statsFix rfl 2 (by decide)

/-- C5: for every batch that produces a report, the accuracy rate equals
exactly 100 * k / n (over ℚ), where k is the number of records with
accurate = true and n the total number of records. -/
theorem C5_accuracy_rate (model : String) (n : Int) (beh : Nat → AgentBehavior)
    (stats : Stats) (h : run_experiments_concurrently model n beh = Except.ok stats) :
    stats.accuracy_rate =
      100 * ((gatherRecords n beh).countP (fun r => r.is_accurate) : ℚ) /
        ((gatherRecords n beh).length : ℚ) := by
  obtain ⟨-, -, -, -, hacc, -, hrate, -, -⟩ := run_ok_inv model n beh stats h
  rw [hrate, hacc, List.countP_map, List.length_map]
  have : (fun b => id b) ∘ (fun r : TrialRecord => r.is_accurate) =
      (fun r : TrialRecord => r.is_accurate) := rfl
  rw [this]
  ring

/-- Witness for C5 at the concrete four-trial batch. -/
theorem C5_accuracy_rate_witness :
    statsFix.accuracy_rate =
      100 * ((gatherRecords 4 behFix).countP (fun r => r.is_accurate) : ℚ) /
        ((gatherRecords 4 behFix).length : ℚ) :=
  C5_accuracy_rate "m" 4 behFix statsFix rfl

end experiment

namespace experiment

theorem foldl_pickMax_spec (rest : List (Nat × Nat)) (b : Nat × Nat) :
    (rest.foldl pickMax b = b ∧ ∀ q ∈ rest, q.2 ≤ b.2) ∨
    (∃ l1 l2, rest = l1 ++ (rest.foldl pickMax b) :: l2 ∧
      b.2 < (rest.foldl pickMax b).2 ∧
      (∀ q ∈ l1, q.2 < (rest.foldl pickMax b).2) ∧
      (∀ q ∈ l2, q.2 ≤ (rest.foldl pickMax b).2)) := by
  induction rest generalizing b with
  | nil => exact Or.inl ⟨rfl, by simp⟩
  | cons cur rest ih =>
    by_cases hcb : cur.2 > b.2
    · have hstep : ((cur :: rest).foldl pickMax b) = rest.foldl pickMax cur := by
        simp [pickMax, hcb]
      rcases ih cur with ⟨heq, hle⟩ | ⟨l1, l2, hsplit, hlt, hl1, hl2⟩
      · refine Or.inr ⟨[], rest, ?_, ?_, by simp, ?_⟩
        · rw [hstep, heq]; simp
        · rw [hstep, heq]; exact hcb
        · rw [hstep, heq]; exact hle
      · refine Or.inr ⟨cur :: l1, l2, ?_, ?_, ?_, ?_⟩
        · rw [hstep, List.cons_append, ← hsplit]
        · rw [hstep]; exact lt_trans hcb hlt
        · rw [hstep]; intro q hq
          rcases List.mem_cons.mp hq with hq | hq
          · rw [hq]; exact hlt
          · exact hl1 q hq
        · rw [hstep]; exact hl2
    · have hstep : ((cur :: rest).foldl pickMax b) = rest.foldl pickMax b := by
        simp [pickMax, hcb]
      rcases ih b with ⟨heq, hle⟩ | ⟨l1, l2, hsplit, hlt, hl1, hl2⟩
      · refine Or.inl ⟨by rw [hstep, heq], ?_⟩
        intro q hq
        rcases List.mem_cons.mp hq with hq | hq
        · rw [hq]; omega
        · exact hle q hq
      · refine Or.inr ⟨cur :: l1, l2, ?_, ?_, ?_, ?_⟩
        · rw [hstep, List.cons_append, ← hsplit]
        · rw [hstep]; exact hlt
        · rw [hstep]; intro q hq
          rcases List.mem_cons.mp hq with hq | hq
          · rw [hq]; omega
          · exact hl1 q hq
        · rw [hstep]; exact hl2

theorem most_common1_spec (items : List (Nat × Nat)) (m : Nat × Nat)
    (h : most_common1 items = some m) :
    ∃ l1 l2, items = l1 ++ m :: l2 ∧ (∀ q ∈ l1, q.2 < m.2) ∧
      (∀ q ∈ items, q.2 ≤ m.2) := by
  match items, h with
  | it :: rest, h =>
    rw [most_common1] at h
    injection h with h
    rcases foldl_pickMax_spec rest it with ⟨heq, hle⟩ | ⟨l1, l2, hsplit, hlt, hl1, hl2⟩
    · rw [heq] at h
      refine ⟨[], rest, by rw [← h]; simp, by simp, ?_⟩
      intro q hq
      rcases List.mem_cons.mp hq with hq | hq
      · rw [hq, ← h]
      · rw [← h]; exact hle q hq
    · rw [h] at hsplit hlt hl1 hl2
      refine ⟨it :: l1, l2, by rw [List.cons_append, ← hsplit], ?_, ?_⟩
      · intro q hq
        rcases List.mem_cons.mp hq with hq | hq
        · rw [hq]; exact hlt
        · exact hl1 q hq
      · intro q hq
        rcases List.mem_cons.mp hq with hq | hq
        · rw [hq]; exact le_of_lt hlt
        · rw [hsplit] at hq
          rcases List.mem_append.mp hq with hq | hq
          · exact le_of_lt (hl1 q hq)
          · rcases List.mem_cons.mp hq with hq | hq
            · rw [hq]
            · exact hl2 q hq

theorem getCount_bump_same (acc : List (Nat × Nat)) (x : Nat) :
    getCount (bump acc x) x = getCount acc x + 1 := by
  induction acc with
  | nil => simp [bump, getCount]
  | cons p rest ih =>
    obtain ⟨y, c⟩ := p
    by_cases hxy : x = y
    · subst hxy; simp [bump, getCount]
    · simp [bump, hxy, getCount, Ne.symm hxy, ih]

theorem getCount_bump_ne (acc : List (Nat × Nat)) (x w : Nat) (hwx : w ≠ x) :
    getCount (bump acc x) w = getCount acc w := by
  have hxw : ¬(x = w) := fun h => hwx h.symm
  induction acc with
  | nil => simp [bump, getCount, hxw]
  | cons p rest ih =>
    obtain ⟨y, c⟩ := p
    by_cases hxy : x = y
    · subst hxy; simp [bump, getCount, hxw]
    · simp [bump, hxy, getCount, ih]

theorem getCount_foldl_bump (xs : List Nat) : ∀ (acc : List (Nat × Nat)) (v : Nat),
    getCount (xs.foldl bump acc) v = getCount acc v + xs.count v := by
  induction xs with
  | nil => intro acc v; simp
  | cons x xs ih =>
    intro acc v
    rw [List.foldl_cons, ih]
    by_cases hvx : v = x
    · subst hvx; rw [getCount_bump_same]; simp [List.count_cons]; omega
    · rw [getCount_bump_ne _ _ _ hvx]; simp [List.count_cons, hvx]

theorem getCount_counterList (xs : List Nat) (v : Nat) :
    getCount (counterList xs) v = xs.count v := by
  rw [counterList, getCount_foldl_bump]
  simp [getCount]

theorem keys_bump_mem (acc : List (Nat × Nat)) (x : Nat) :
    x ∈ keys acc → keys (bump acc x) = keys acc := by
  induction acc with
  | nil => intro hx; simp [keys] at hx
  | cons p rest ih =>
    intro hx
    obtain ⟨y, c⟩ := p
    by_cases hxy : x = y
    · subst hxy; simp [bump, keys]
    · have hx2 : x ∈ keys rest := by
        have h2 : x = y ∨ x ∈ keys rest := by simpa [keys] using hx
        rcases h2 with h2 | h2
        · exact absurd h2 hxy
        · exact h2
      have h3 := ih hx2
      simp only [bump, if_neg hxy, keys, List.map_cons] at h3 ⊢
      rw [h3]

theorem keys_bump_not_mem (acc : List (Nat × Nat)) (x : Nat) :
    x ∉ keys acc → keys (bump acc x) = keys acc ++ [x] := by
  induction acc with
  | nil => intro hx; simp [bump, keys]
  | cons p rest ih =>
    intro hx
    obtain ⟨y, c⟩ := p
    have hxy : x ≠ y := by
      intro he; exact hx (by simp [keys, he])
    have hx2 : x ∉ keys rest := by
      intro hm
      exact hx (by simp only [keys, List.map_cons, List.mem_cons]; exact Or.inr hm)
    have h3 := ih hx2
    simp only [bump, if_neg hxy, keys, List.map_cons] at h3 ⊢
    rw [h3, List.cons_append]

theorem keys_foldl_bump (xs : List Nat) : ∀ (acc : List (Nat × Nat)),
    keys (xs.foldl bump acc) =
      keys acc ++ (firstOccurrences xs).filter (fun y => decide (y ∉ keys acc)) := by
  induction xs with
  | nil => intro acc; simp [firstOccurrences]
  | cons x xs ih =>
    intro acc
    rw [List.foldl_cons, ih]
    by_cases hx : x ∈ keys acc
    · rw [keys_bump_mem acc x hx, firstOccurrences, List.filter_cons,
        if_neg (by simp [hx])]
      congr 1
      rw [List.filter_filter]
      apply List.filter_congr
      intro y hy
      by_cases hyk : y ∈ keys acc
      · simp [hyk]
      · have hyx : y ≠ x := by intro he; rw [he] at hyk; exact hyk hx
        simp [hyk, hyx]
    · rw [keys_bump_not_mem acc x hx, firstOccurrences, List.filter_cons,
        if_pos (by simp [hx]), List.append_assoc, List.singleton_append]
      congr 2
      rw [List.filter_filter]
      apply List.filter_congr
      intro y hy
      by_cases hyx : y = x
      · subst hyx; simp
      · by_cases hyk : y ∈ keys acc <;> simp [hyk, hyx, List.mem_append]

theorem keys_counterList (xs : List Nat) :
    keys (counterList xs) = firstOccurrences xs := by
  rw [counterList, keys_foldl_bump]
  simp [keys]

theorem firstOccurrences_nodup (xs : List Nat) : (firstOccurrences xs).Nodup := by
  induction xs with
  | nil => simp [firstOccurrences]
  | cons x xs ih =>
    rw [firstOccurrences, List.nodup_cons]
    refine ⟨?_, ih.filter _⟩
    intro hmem
    have := List.of_mem_filter hmem
    simp at this

theorem getCount_of_mem (l : List (Nat × Nat)) (p : Nat × Nat) (hp : p ∈ l)
    (hnd : (keys l).Nodup) : getCount l p.1 = p.2 := by
  induction l with
  | nil => cases hp
  | cons q rest ih =>
    have hnd2 : (q.1 :: keys rest).Nodup := by simpa [keys] using hnd
    rcases List.mem_cons.mp hp with h | h
    · rw [← h]; simp [getCount]
    · have hq : q.1 ≠ p.1 := by
        intro he
        have hkey : p.1 ∈ keys rest := by
          rw [keys]; exact List.mem_map_of_mem Prod.fst h
        exact (List.nodup_cons.mp hnd2).1 (he ▸ hkey)
      simp [getCount, hq]
      exact ih h (List.nodup_cons.mp hnd2).2

theorem getCount_mem (l : List (Nat × Nat)) (v : Nat) (h : getCount l v ≠ 0) :
    (v, getCount l v) ∈ l := by
  induction l with
  | nil => simp [getCount] at h
  | cons p rest ih =>
    by_cases hp : p.1 = v
    · have : getCount (p :: rest) v = p.2 := by simp [getCount, hp]
      rw [this]
      exact List.mem_cons.mpr (Or.inl (by rw [← hp]))
    · have heq : getCount (p :: rest) v = getCount rest v := by simp [getCount, hp]
      rw [heq] at h ⊢
      exact List.mem_cons.mpr (Or.inr (ih h))

theorem find?_append_false (P : Nat → Bool) (l1 l2 : List Nat)
    (h : ∀ y ∈ l1, P y = false) : (l1 ++ l2).find? P = l2.find? P := by
  induction l1 with
  | nil => simp
  | cons x l1 ih =>
    rw [List.cons_append, List.find?_cons_of_neg, ih]
    · intro y hy; exact h y (List.mem_cons_of_mem _ hy)
    · simp [h x (List.mem_cons_self _ _)]

theorem find?_filter_ne (P : Nat → Bool) (l : List Nat) (x : Nat)
    (hPx : P x = false) :
    (l.filter (fun y => y != x)).find? P = l.find? P := by
  induction l with
  | nil => simp
  | cons a l ih =>
    by_cases hax : a = x
    · subst hax
      rw [List.filter_cons, bne_self_eq_false, if_neg Bool.false_ne_true, ih,
        List.find?_cons_of_neg _ (by simp [hPx])]
    · rw [List.filter_cons, if_pos (by simp [hax])]
      by_cases hPa : P a = true
      · rw [List.find?_cons_of_pos _ hPa, List.find?_cons_of_pos _ hPa]
      · rw [List.find?_cons_of_neg _ hPa, List.find?_cons_of_neg _ hPa, ih]

theorem find?_firstOccurrences (P : Nat → Bool) (xs : List Nat) :
    (firstOccurrences xs).find? P = xs.find? P := by
  induction xs with
  | nil => simp [firstOccurrences]
  | cons x xs ih =>
    rw [firstOccurrences]
    by_cases hPx : P x = true
    · rw [List.find?_cons_of_pos _ hPx, List.find?_cons_of_pos _ hPx]
    · have hPx2 : P x = false := by simpa using hPx
      rw [List.find?_cons_of_neg _ hPx, List.find?_cons_of_neg _ hPx,
        find?_filter_ne P _ x hPx2, ih]

theorem find?_first_indexOf (P : Nat → Bool) (xs : List Nat) (v : Nat)
    (h : xs.find? P = some v) :
    v ∈ xs ∧ ∀ w ∈ xs, P w = true → xs.indexOf v ≤ xs.indexOf w := by
  induction xs with
  | nil => simp at h
  | cons x rest ih =>
    by_cases hPx : P x = true
    · rw [List.find?_cons_of_pos _ hPx] at h
      injection h with h
      rw [← h]
      refine ⟨List.mem_cons_self _ _, ?_⟩
      intro w hw hPw
      simp [List.indexOf_cons_self]
    · rw [List.find?_cons_of_neg _ hPx] at h
      obtain ⟨hvmem, hidx⟩ := ih h
      have hPv : P v = true := List.find?_some h
      have hvx : v ≠ x := by intro he; rw [he] at hPv; exact hPx hPv
      refine ⟨List.mem_cons_of_mem _ hvmem, ?_⟩
      intro w hw hPw
      have hwx : w ≠ x := by intro he; rw [he] at hPw; exact hPx hPw
      rcases List.mem_cons.mp hw with he | hw2
      · exact absurd he hwx
      · rw [List.indexOf_cons_ne _ (Ne.symm hvx), List.indexOf_cons_ne _ (Ne.symm hwx)]
        exact Nat.succ_le_succ (hidx w hw2 hPw)

end experiment

namespace experiment

/-- Every entry of the frequency table stores the exact number of occurrences
of its key. -/
theorem counterList_count (xs : List Nat) (p : Nat × Nat) (hp : p ∈ counterList xs) :
    p.2 = xs.count p.1 := by
  have hnd : (keys (counterList xs)).Nodup := by
    rw [keys_counterList]; exact firstOccurrences_nodup xs
  have h1 := getCount_of_mem _ p hp hnd
  rw [← h1, getCount_counterList]

/-- C6: for every batch that produces a report, the modal count is an
actual_count value of maximal frequency; on a frequency tie it is the value
whose first occurrence comes earliest (insertion order of first occurrence),
and the aggregation is deterministic: any second run on the same input yields
the same modal value. -/
theorem C6_modal_count (model : String) (n : Int) (beh : Nat → AgentBehavior)
    (stats : Stats) (h : run_experiments_concurrently model n beh = Except.ok stats) :
    stats.most_common_count ∈ stats.actual_counts ∧
    (∀ w, stats.actual_counts.count w ≤
        stats.actual_counts.count stats.most_common_count) ∧
    (∀ w ∈ stats.actual_counts,
        stats.actual_counts.count w =
          stats.actual_counts.count stats.most_common_count →
        stats.actual_counts.indexOf stats.most_common_count ≤
          stats.actual_counts.indexOf w) ∧
    (∀ stats2, run_experiments_concurrently model n beh = Except.ok stats2 →
        stats2.most_common_count = stats.most_common_count) := by
  obtain ⟨-, -, -, hact, haccs, -, -, hne, mf, hmc, -⟩ := run_ok_inv model n beh stats h
  obtain ⟨l1, l2, hsplit, hl1, hall⟩ := most_common1_spec _ _ hmc
  have hmem_pair : (stats.most_common_count, mf) ∈ counterList stats.actual_counts := by
    rw [hsplit]; exact List.mem_append_right _ (List.mem_cons_self _ _)
  have hvc : mf = stats.actual_counts.count stats.most_common_count :=
    counterList_count _ _ hmem_pair
  have hrec_ne : gatherRecords n beh ≠ [] := by
    intro hnil
    exact hne (by rw [haccs, hnil]; rfl)
  have hxs_ne : stats.actual_counts ≠ [] := by
    intro hnil
    rw [hact] at hnil
    exact hrec_ne (List.map_eq_nil_iff.mp hnil)
  have hmax : ∀ w, stats.actual_counts.count w ≤ mf := by
    intro w
    by_cases hw : stats.actual_counts.count w = 0
    · rw [hw]; exact Nat.zero_le _
    · have hpair : (w, getCount (counterList stats.actual_counts) w) ∈
          counterList stats.actual_counts :=
        getCount_mem _ w (by rw [getCount_counterList]; exact hw)
      have h2 := hall _ hpair
      simpa [getCount_counterList] using h2
  have hvpos : 0 < stats.actual_counts.count stats.most_common_count := by
    obtain ⟨x0, hx0⟩ := List.exists_mem_of_ne_nil _ hxs_ne
    have h1 : 0 < stats.actual_counts.count x0 := List.count_pos_iff.mpr hx0
    calc 0 < stats.actual_counts.count x0 := h1
      _ ≤ mf := hmax x0
      _ = _ := hvc
  have hvmem : stats.most_common_count ∈ stats.actual_counts := List.count_pos_iff.mp hvpos
  have hfind : stats.actual_counts.find?
      (fun y => stats.actual_counts.count y == mf) = some stats.most_common_count := by
    have hkeys : keys (counterList stats.actual_counts) =
        (l1.map Prod.fst) ++ stats.most_common_count :: (l2.map Prod.fst) := by
      rw [hsplit, keys, List.map_append, List.map_cons]
    have hfalse : ∀ y ∈ l1.map Prod.fst,
        (fun y => stats.actual_counts.count y == mf) y = false := by
      intro y hy
      obtain ⟨q, hq, hq1⟩ := List.mem_map.mp hy
      have hqc : q.2 = stats.actual_counts.count q.1 :=
        counterList_count _ q (by rw [hsplit]; exact List.mem_append_left _ hq)
      have hlt := hl1 q hq
      simp only [← hq1, ← hqc]
      simp [Nat.ne_of_lt hlt]
    have h2 : (keys (counterList stats.actual_counts)).find?
        (fun y => stats.actual_counts.count y == mf) = some stats.most_common_count := by
      rw [hkeys, find?_append_false _ _ _ hfalse, List.find?_cons_of_pos]
      rw [hvc]
      simp
    rw [keys_counterList, find?_firstOccurrences] at h2
    exact h2
  obtain ⟨-, hidx⟩ := find?_first_indexOf _ _ _ hfind
  refine ⟨hvmem, ?_, ?_, ?_⟩
  · intro w
    calc stats.actual_counts.count w ≤ mf := hmax w
      _ = _ := hvc
  · intro w hw hcw
    apply hidx w hw
    rw [hcw, ← hvc]
    simp
  · intro stats2 h2
    have h3 := h.symm.trans h2
    injection h3 with he
    rw [← he]

/-- Witness for C6 at the concrete four-trial batch, whose actual counts
[3, 5, 3, 5] have a two-way frequency tie. -/
theorem C6_modal_count_witness :
    statsFix.most_common_count ∈ statsFix.actual_counts ∧
    (∀ w, statsFix.actual_counts.count w ≤
        statsFix.actual_counts.count statsFix.most_common_count) ∧
    (∀ w ∈ statsFix.actual_counts,
        statsFix.actual_counts.count w =
          statsFix.actual_counts.count statsFix.most_common_count →
        statsFix.actual_counts.indexOf statsFix.most_common_count ≤
          statsFix.actual_counts.indexOf w) ∧
    (∀ stats2, run_experiments_concurrently "m" 4 behFix = Except.ok stats2 →
        stats2.most_common_count = statsFix.most_common_count) :=
  C6_modal_count "m" 4 behFix statsFix rfl

end experiment

namespace experiment

theorem foldl_min_le (l : List Nat) : ∀ (a : Nat),
    l.foldl Nat.min a ≤ a ∧ ∀ w ∈ l, l.foldl Nat.min a ≤ w := by
  induction l with
  | nil => intro a; exact ⟨le_refl a, by simp⟩
  | cons x l ih =>
    intro a
    rw [List.foldl_cons]
    obtain ⟨h1, h2⟩ := ih (Nat.min a x)
    refine ⟨le_trans h1 (Nat.min_le_left _ _), ?_⟩
    intro w hw
    rcases List.mem_cons.mp hw with hw | hw
    · rw [hw]; exact le_trans h1 (Nat.min_le_right _ _)
    · exact h2 w hw

theorem foldl_min_mem (l : List Nat) : ∀ (a : Nat),
    l.foldl Nat.min a = a ∨ l.foldl Nat.min a ∈ l := by
  induction l with
  | nil => intro a; exact Or.inl rfl
  | cons x l ih =>
    intro a
    rw [List.foldl_cons]
    rcases ih (Nat.min a x) with h | h
    · rw [h]
      have hca : Nat.min a x = a ∨ Nat.min a x = x := by
        rcases Nat.le_total a x with hax | hax
        · exact Or.inl (Nat.min_eq_left hax)
        · exact Or.inr (Nat.min_eq_right hax)
      rcases hca with hca | hca
      · exact Or.inl hca
      · exact Or.inr (by rw [hca]; exact List.mem_cons_self _ _)
    · exact Or.inr (List.mem_cons_of_mem _ h)

theorem foldl_max_ge (l : List Nat) : ∀ (a : Nat),
    a ≤ l.foldl Nat.max a ∧ ∀ w ∈ l, w ≤ l.foldl Nat.max a := by
  induction l with
  | nil => intro a; exact ⟨le_refl a, by simp⟩
  | cons x l ih =>
    intro a
    rw [List.foldl_cons]
    obtain ⟨h1, h2⟩ := ih (Nat.max a x)
    refine ⟨le_trans (Nat.le_max_left _ _) h1, ?_⟩
    intro w hw
    rcases List.mem_cons.mp hw with hw | hw
    · rw [hw]; exact le_trans (Nat.le_max_right _ _) h1
    · exact h2 w hw

theorem foldl_max_mem (l : List Nat) : ∀ (a : Nat),
    l.foldl Nat.max a = a ∨ l.foldl Nat.max a ∈ l := by
  induction l with
  | nil => intro a; exact Or.inl rfl
  | cons x l ih =>
    intro a
    rw [List.foldl_cons]
    rcases ih (Nat.max a x) with h | h
    · rw [h]
      have hca : Nat.max a x = a ∨ Nat.max a x = x := by
        rcases Nat.le_total a x with hax | hax
        · exact Or.inr (Nat.max_eq_right hax)
        · exact Or.inl (Nat.max_eq_left hax)
      rcases hca with hca | hca
      · exact Or.inl hca
      · exact Or.inr (by rw [hca]; exact List.mem_cons_self _ _)
    · exact Or.inr (List.mem_cons_of_mem _ h)

/-- C8: for every batch whose report is printed, the detailed statistics
contain the arithmetic mean of the actual counts (their sum divided by the
number of records, over ℚ), their minimum (a member that lower-bounds every
record) and their maximum (a member that upper-bounds every record). -/
theorem C8_detailed_stats (model : String) (n : Int) (beh : Nat → AgentBehavior)
    (rep : DetailedReport) (h : mainReport model n beh = Except.ok rep) :
    rep.average_actual =
      (((((gatherRecords n beh).map (fun r => r.actual_count)).sum : Nat) : ℚ)) /
        (((gatherRecords n beh).map (fun r => r.actual_count)).length : ℚ) ∧
    rep.min_actual ∈ (gatherRecords n beh).map (fun r => r.actual_count) ∧
    (∀ w ∈ (gatherRecords n beh).map (fun r => r.actual_count), rep.min_actual ≤ w) ∧
    rep.max_actual ∈ (gatherRecords n beh).map (fun r => r.actual_count) ∧
    (∀ w ∈ (gatherRecords n beh).map (fun r => r.actual_count), w ≤ rep.max_actual) := by
  unfold mainReport at h
  split at h
  · exact absurd h (by simp)
  next stats hrun =>
    obtain ⟨-, -, -, hact, -, -, -, -, -⟩ := run_ok_inv model n beh stats hrun
    rw [← hact]
    split at h
    · exact absurd h (by simp)
    next hlen =>
      split at h
      · exact absurd h (by simp)
      next a rest hcons =>
        injection h with h
        subst h
        rw [hcons]
        obtain ⟨hmin1, hmin2⟩ := foldl_min_le rest a
        obtain ⟨hmax1, hmax2⟩ := foldl_max_ge rest a
        refine ⟨rfl, ?_, ?_, ?_, ?_⟩
        · rcases foldl_min_mem rest a with hm | hm
          · exact List.mem_cons.mpr (Or.inl hm)
          · exact List.mem_cons.mpr (Or.inr hm)
        · intro w hw
          rcases List.mem_cons.mp hw with hw | hw
          · rw [hw]; exact hmin1
          · exact hmin2 w hw
        · rcases foldl_max_mem rest a with hm | hm
          · exact List.mem_cons.mpr (Or.inl hm)
          · exact List.mem_cons.mpr (Or.inr hm)
        · intro w hw
          rcases List.mem_cons.mp hw with hw | hw
          · rw [hw]; exact hmax1
          · exact hmax2 w hw

/-- Witness for C8 at the concrete four-trial batch. -/
theorem C8_detailed_stats_witness :
    reportFix.average_actual =
      (((((gatherRecords 4 behFix).map (fun r => r.actual_count)).sum : Nat) : ℚ)) /
        (((gatherRecords 4 behFix).map (fun r => r.actual_count)).length : ℚ) ∧
    reportFix.min_actual ∈ (gatherRecords 4 behFix).map (fun r => r.actual_count) ∧
    (∀ w ∈ (gatherRecords 4 behFix).map (fun r => r.actual_count),
      reportFix.min_actual ≤ w) ∧
    reportFix.max_actual ∈ (gatherRecords 4 behFix).map (fun r => r.actual_count) ∧
    (∀ w ∈ (gatherRecords 4 behFix).map (fun r => r.actual_count),
      w ≤ reportFix.max_actual) :=
  C8_detailed_stats "m" 4 behFix reportFix rfl

end experiment
